import Mathlib

/-!
Formal model of the MP4 Video Splitter engine (src/main.py).

The model covers the clip-planning arithmetic and the split-worker event
loop of `SplitWorker.run`, the frame-rate computation of
`FFmpegValidator.get_video_info`, and the validation prefix of
`VideoSplitterApp.start_splitting`.  Durations and clip boundaries are
modelled as rationals (the source manipulates them as Python floats),
machine integers as `Nat`/`Int`.
-/

namespace MP4Split

/-- Python `int()` applied to a number: truncation toward zero. -/
def truncQ (q : ℚ) : ℤ := if 0 ≤ q then ⌊q⌋ else ⌈q⌉

/-- Python `a % b` for a number `a` and a positive integer `b`:
`a - b * floor (a / b)` (the result carries the sign of `b`). -/
def pymod (a : ℚ) (b : ℕ) : ℚ := a - b * ⌊a / b⌋

/-- Frame-rate field of `FFmpegValidator.get_video_info` (src/main.py:76).
The source computes `eval(video_stream.get('r_frame_rate', '0/1'))`.  On a
well-formed `"num/den"` probe string, Python evaluates true division
`num / den`; when `den = 0` the evaluation raises `ZeroDivisionError`,
the surrounding `except` catches it and `get_video_info` returns `None`,
failing the whole probe.  `none` models that failure. -/
def evalFrameRate (num den : ℤ) : Option ℚ :=
  if den = 0 then none else some ((num : ℚ) / den)

/-- Modelled from the spec: the explicit rational parse prescribed by
spec sections 4.1 and 9 (absent from the source, which uses `eval`):
split `"num/den"` on the slash, parse both sides as integers, and guard
denominator `0` by yielding `fps = 0`. -/
def parseFrameRateSpec (num den : ℤ) : ℚ :=
  if den = 0 then 0 else (num : ℚ) / den

/-- Maximum feasible clip count, `SplitWorker.run` (src/main.py:137-145).
With overlap: `int((total_duration + overlap) / (clip_duration - overlap))`.
Without: `int(total_duration / clip_duration)`, plus one when
`total_duration % clip_duration > 0`.  In the reachable configurations the
GUI guarantees `O < L` (src/main.py:623), so the subtraction `L - O` is
positive; it is taken in `ℚ` to match Python integer subtraction. -/
def maxPossibleClips (D : ℚ) (L O : ℕ) : ℤ :=
  if 0 < O then truncQ ((D + O) / ((L : ℚ) - O))
  else truncQ (D / L) + (if 0 < pymod D L then 1 else 0)

/-- The loop bound `actual_clips = min(num_clips, ...)` (src/main.py:139-145). -/
def actualClips (D : ℚ) (L O N : ℕ) : ℤ :=
  min (N : ℤ) (maxPossibleClips D L O)

/-- Clip start time (src/main.py:160-163): `max(0, i * (L - O))` with
overlap, `i * L` without. -/
def clipStart (L O : ℕ) (i : ℕ) : ℚ :=
  if 0 < O then max 0 ((i : ℚ) * ((L : ℚ) - O)) else (i : ℚ) * L

/-- Clip end time (src/main.py:165): `min(start + L, total_duration)`. -/
def clipEnd (D : ℚ) (L O : ℕ) (i : ℕ) : ℚ :=
  min (clipStart L O i + L) D

/-- One planned clip window.  `index` is the 1-based clip number used in
the output file name `clip_{i+1:03d}.mp4`; `stop` is the end of the
window (named `end` in the spec, a keyword in Lean). -/
structure ClipSpec where
  index : ℕ
  start : ℚ
  stop : ℚ
  deriving Repr, DecidableEq

/-- The windows the loop of `SplitWorker.run` (src/main.py:154-172)
considers and emits, starting at loop index `i` with `n` iterations of
`range(actual_clips)` remaining: break once `start >= total_duration`,
skip windows shorter than one second, emit the rest in order. -/
def planFrom (D : ℚ) (L O : ℕ) : ℕ → ℕ → List ClipSpec
  | 0, _ => []
  | n + 1, i =>
    if D ≤ clipStart L O i then []
    else if clipEnd D L O i - clipStart L O i < 1 then planFrom D L O n (i + 1)
    else ⟨i + 1, clipStart L O i, clipEnd D L O i⟩ :: planFrom D L O n (i + 1)

/-- The full plan of a job: the windows the worker loop would emit,
iterating `i` over `range(actual_clips)` (src/main.py:154). -/
def plan (D : ℚ) (L O N : ℕ) : List ClipSpec :=
  planFrom D L O (actualClips D L O N).toNat 0

/-- Outcome of one ffmpeg encode invocation as observed by the worker
(src/main.py:215-226): whether `subprocess.run` timed out, its return
code, and whether the output path exists and its size in bytes. -/
structure EncodeResult where
  timedOut : Bool
  returncode : ℤ
  outputExists : Bool
  outputSize : ℕ
  deriving Repr, DecidableEq

/-- Output verification (src/main.py:221):
`os.path.exists(output_path) and os.path.getsize(output_path) > 1024`. -/
def encodeVerified (r : EncodeResult) : Bool :=
  r.outputExists && decide (1024 < r.outputSize)

/-- Payload of a `status_update` signal, abstracted from the message
strings of src/main.py (lines 151, 156, 176, 240, 245). -/
inductive StatusMsg where
  | creating (n : ℕ)
  | processing (k n : ℕ)
  | stopping
  | success (n : ℕ)
  | stopped (n : ℕ)
  deriving Repr, DecidableEq

/-- Payload of an `error` signal, abstracted from the message strings of
src/main.py (lines 148, 229, 232, 243). -/
inductive ErrorMsg where
  | tooShort
  | clipTimeout (k : ℕ)
  | clipFailed (k : ℕ)
  | noClips
  deriving Repr, DecidableEq

/-- One Qt signal emitted by `SplitWorker` to the caller
(src/main.py:88-92). -/
inductive Event where
  | progress (p : ℤ)
  | status (m : StatusMsg)
  | clipCompleted (k : ℕ)
  | error (e : ErrorMsg)
  | finished (clipsCreated : ℕ)
  deriving Repr, DecidableEq

/-- Progress percentage `int(((i + 1) / actual_clips) * 100)`
(src/main.py:236). -/
def progressPct (k n : ℕ) : ℤ := truncQ (((k : ℚ) / n) * 100)

/-- Observable outcome of a worker run: the emitted signals in order,
the 1-based clip numbers for which an ffmpeg encode subprocess was
spawned, and the final `clips_created` counter. -/
structure RunOutput where
  events : List Event
  spawns : List ℕ
  clipsCreated : ℕ
  deriving Repr, DecidableEq

/-- The clip loop of `SplitWorker.run` (src/main.py:153-237).  `total` is
`actual_clips`, `enc i` the outcome of the encode subprocess for loop
index `i`, `stopRead i` the value of `self.should_stop` read at the top
of iteration `i`, `n` the remaining iterations of `range(actual_clips)`,
`c` the running `clips_created`.  Branches, in source order: stop check
(emit "Stopping...", break); `start >= total_duration` (break); window
shorter than one second (continue); then the encode attempt, which emits
the processing status, spawns ffmpeg, and either breaks with an error
signal (timeout, non-zero exit, failed verification) or emits
`clip_completed` followed by `progress`. -/
def runLoop (D : ℚ) (L O total : ℕ) (enc : ℕ → EncodeResult)
    (stopRead : ℕ → Bool) : ℕ → ℕ → ℕ → RunOutput
  | 0, _, c => ⟨[], [], c⟩
  | n + 1, i, c =>
    if stopRead i then ⟨[.status .stopping], [], c⟩
    else if D ≤ clipStart L O i then ⟨[], [], c⟩
    else if clipEnd D L O i - clipStart L O i < 1 then
      runLoop D L O total enc stopRead n (i + 1) c
    else if (enc i).timedOut then
      ⟨[.status (.processing (i + 1) total), .error (.clipTimeout (i + 1))], [i + 1], c⟩
    else if (enc i).returncode ≠ 0 then
      ⟨[.status (.processing (i + 1) total), .error (.clipFailed (i + 1))], [i + 1], c⟩
    else if encodeVerified (enc i) then
      let rest := runLoop D L O total enc stopRead n (i + 1) (c + 1)
      ⟨.status (.processing (i + 1) total) :: .clipCompleted (i + 1) ::
          .progress (progressPct (i + 1) total) :: rest.events,
        (i + 1) :: rest.spawns, rest.clipsCreated⟩
    else
      ⟨[.status (.processing (i + 1) total), .error (.clipFailed (i + 1))], [i + 1], c⟩

/-- The terminal branch of `SplitWorker.run` (src/main.py:239-245):
`finished` (preceded by a success status) when `should_stop` is unset and
`clips_created > 0`, the "no clips were created" error when
`clips_created == 0`, and the "operation stopped" status otherwise.
`stopFinal` is the value of `self.should_stop` read at line 239. -/
def terminalEvents (stopFinal : Bool) (c : ℕ) : List Event :=
  if !stopFinal && decide (0 < c) then [.status (.success c), .finished c]
  else if c = 0 then [.error .noClips]
  else [.status (.stopped c)]

/-- `SplitWorker.run` from the point where ffmpeg validation and the
probe have succeeded with duration `D` (src/main.py:136-245): compute
`actual_clips`, fail with the "too short" error when it is zero,
otherwise run the clip loop and emit the terminal branch
(src/main.py:239-245): `finished` when the stop flag is unset and at
least one clip was created, the "no clips" error when none was, and the
"stopped" status otherwise.  `stopFinal` is the value of
`self.should_stop` read at line 239.  In the reachable configurations
(`O < L`, `D > 0`) `actual_clips` is never negative, so `toNat` is
faithful to the `range` bound. -/
def runWorker (D : ℚ) (L O N : ℕ) (enc : ℕ → EncodeResult)
    (stopRead : ℕ → Bool) (stopFinal : Bool) : RunOutput :=
  if (actualClips D L O N).toNat = 0 then ⟨[.error .tooShort], [], 0⟩
  else
    let total := (actualClips D L O N).toNat
    let body := runLoop D L O total enc stopRead total 0 0
    ⟨.status (.creating total) ::
        (body.events ++ terminalEvents stopFinal body.clipsCreated),
      body.spawns, body.clipsCreated⟩

/-- The percentage carried by a `progress` signal, if any. -/
def progressVal : Event → Option ℤ
  | .progress p => some p
  | _ => none

/-- The progress percentages of a signal sequence, in emission order. -/
def progressVals (es : List Event) : List ℤ := es.filterMap progressVal

/-- The clip number carried by a `clip_completed` signal, if any. -/
def clipIdx : Event → Option ℕ
  | .clipCompleted k => some k
  | _ => none

/-- The clip numbers of the `clip_completed` signals of a signal
sequence, in emission order. -/
def clipIdxs (es : List Event) : List ℕ := es.filterMap clipIdx

/-- Whether a signal is the `error` terminal signal. -/
def isErrorEv : Event → Bool
  | .error _ => true
  | _ => false

/-- Whether a signal is the `finished` terminal signal. -/
def isFinishedEv : Event → Bool
  | .finished _ => true
  | _ => false

/-- Number of `error` signals in a sequence. -/
def errorCount (es : List Event) : ℕ := (es.filter isErrorEv).length

/-- Number of `finished` signals in a sequence. -/
def finishedCount (es : List Event) : ℕ := (es.filter isFinishedEv).length

/-- Number of terminal signals (`error` or `finished`) in a sequence. -/
def terminalCount (es : List Event) : ℕ := errorCount es + finishedCount es

/-- Kind of subprocess spawned by the GUI layer. -/
inductive SpawnKind where
  | ffmpegVersion
  deriving Repr, DecidableEq

/-- Observable action of `VideoSplitterApp.start_splitting`. -/
inductive StartAction where
  | spawnProcess (k : SpawnKind)
  | warnNoFile
  | warnNoFolder
  | warnFileMissing
  | criticalFFmpeg
  | warnInvalidOverlap
  | startWorker
  deriving Repr, DecidableEq

/-- GUI-side preconditions of `start_splitting`, as booleans. -/
structure AppState where
  inputFileSelected : Bool
  inputFileExists : Bool
  outputDirSelected : Bool
  ffmpegOnPath : Bool
  ffmpegVersionOk : Bool
  deriving Repr, DecidableEq

/-- `FFmpegValidator.check_ffmpeg` (src/main.py:21-39): `shutil.which`
first (no subprocess); when ffmpeg is on the PATH it spawns
`ffmpeg -version` and succeeds iff that exits zero (timeouts and
exceptions are folded into `ffmpegVersionOk`). -/
def check_ffmpeg (st : AppState) : List StartAction × Bool :=
  if !st.ffmpegOnPath then ([], false)
  else ([.spawnProcess .ffmpegVersion], st.ffmpegVersionOk)

/-- Validation prefix of `VideoSplitterApp.start_splitting`
(src/main.py:594-626), up to the point where the worker thread is
started: file and folder checks, then `check_ffmpeg` (which spawns a
subprocess), then the `overlap >= clip_duration` rejection.  The
disk-space prompt (src/main.py:629-640) spawns nothing and rejects
nothing relevant to the claims, and is omitted. -/
def start_splitting (st : AppState) (clip_duration overlap : ℕ) :
    List StartAction :=
  if !st.inputFileSelected then [.warnNoFile]
  else if !st.outputDirSelected then [.warnNoFolder]
  else if !st.inputFileExists then [.warnFileMissing]
  else
    (check_ffmpeg st).1 ++
      (if !(check_ffmpeg st).2 then [.criticalFFmpeg]
       else if clip_duration ≤ overlap then [.warnInvalidOverlap]
       else [.startWorker])

/-- Encode oracle for the fail-fast scenario: loop indices 0 and 1
(clips 1 and 2) succeed with a 2048-byte output, every later invocation
exits 1. -/
def encC1 : ℕ → EncodeResult := fun i =>
  if i < 2 then ⟨false, 0, true, 2048⟩ else ⟨false, 1, true, 2048⟩

/-- Encode oracle where every invocation succeeds with a 2048-byte
output. -/
def encOkAll : ℕ → EncodeResult := fun _ => ⟨false, 0, true, 2048⟩

/-- Encode oracle where every invocation exits 0 but leaves only a
100-byte output, below the 1 KiB verification floor. -/
def encSmall : ℕ → EncodeResult := fun _ => ⟨false, 0, true, 100⟩

/-! ### Helper lemmas about the planner arithmetic -/

theorem clipStart_nonneg (L O i : ℕ) : 0 ≤ clipStart L O i := by
  unfold clipStart
  split
  · exact le_max_left 0 _
  · positivity

theorem clipStart_lt_of_lt {L O : ℕ} (hOL : O < L) {i j : ℕ} (hij : i < j) :
    clipStart L O i < clipStart L O j := by
  have hijQ : (i : ℚ) < j := by exact_mod_cast hij
  unfold clipStart
  split
  · have hstride : (1 : ℚ) ≤ (L : ℚ) - O := by
      have : ((O + 1 : ℕ) : ℚ) ≤ L := by exact_mod_cast hOL
      push_cast at this
      linarith
    have h0 : ∀ k : ℕ, (0 : ℚ) ≤ (k : ℚ) * ((L : ℚ) - O) := fun k => by
      have : (0 : ℚ) ≤ (k : ℚ) := by positivity
      nlinarith
    rw [max_eq_right (h0 i), max_eq_right (h0 j)]
    exact mul_lt_mul_of_pos_right hijQ (by linarith)
  · have hL : (0 : ℚ) < L := by
      have hLpos : 0 < L := by omega
      exact_mod_cast hLpos
    exact mul_lt_mul_of_pos_right hijQ hL

theorem clipStart_le_of_le {L O : ℕ} (hOL : O < L) {i j : ℕ} (hij : i ≤ j) :
    clipStart L O i ≤ clipStart L O j := by
  rcases Nat.eq_or_lt_of_le hij with rfl | hlt
  · exact le_refl _
  · exact le_of_lt (clipStart_lt_of_lt hOL hlt)

theorem planFrom_mem {D : ℚ} {L O : ℕ} {n : ℕ} :
    ∀ {i : ℕ} {spec : ClipSpec}, spec ∈ planFrom D L O n i →
      ∃ j, i ≤ j ∧ spec = ⟨j + 1, clipStart L O j, clipEnd D L O j⟩ ∧
        clipStart L O j < D ∧ 1 ≤ clipEnd D L O j - clipStart L O j := by
  induction n with
  | zero => intro i spec h; simp [planFrom] at h
  | succ n ih =>
    intro i spec h
    rw [planFrom] at h
    split at h
    · simp at h
    next hD =>
      split at h
      · obtain ⟨j, hij, hrest⟩ := ih h
        exact ⟨j, by omega, hrest⟩
      next hlong =>
        rcases List.mem_cons.mp h with hh | hh
        · exact ⟨i, le_refl i, hh, not_le.mp hD, not_lt.mp hlong⟩
        · obtain ⟨j, hij, hrest⟩ := ih hh
          exact ⟨j, by omega, hrest⟩

theorem planFrom_pairwise {D : ℚ} {L O : ℕ} (hOL : O < L) {n : ℕ} :
    ∀ {i : ℕ}, (planFrom D L O n i).Pairwise
      (fun a b => a.index < b.index ∧ a.start < b.start) := by
  induction n with
  | zero => intro i; simp [planFrom]
  | succ n ih =>
    intro i
    rw [planFrom]
    split
    · exact List.Pairwise.nil
    · split
      · exact ih
      · refine List.pairwise_cons.mpr ⟨?_, ih⟩
        intro b hb
        obtain ⟨j, hij, hspec, -, -⟩ := planFrom_mem hb
        subst hspec
        constructor
        · simpa using by omega
        · simpa using clipStart_lt_of_lt hOL (by omega)

theorem planFrom_length_le {D : ℚ} {L O : ℕ} {n : ℕ} :
    ∀ {i : ℕ}, (planFrom D L O n i).length ≤ n := by
  induction n with
  | zero => intro i; simp [planFrom]
  | succ n ih =>
    intro i
    rw [planFrom]
    split
    · simp
    · split
      · exact le_trans ih (Nat.le_succ n)
      · simpa using ih

theorem maxPossible_no_overlap {D : ℚ} {L : ℕ} (hD : 0 < D) (hL : 0 < L) :
    maxPossibleClips D L 0 = ⌈D / (L : ℚ)⌉ := by
  have hLQ : (0 : ℚ) < L := by exact_mod_cast hL
  have hdiv : (0 : ℚ) ≤ D / L := by positivity
  have hfl : (L : ℚ) * ⌊D / (L : ℚ)⌋ ≤ D := by
    have h1 : (⌊D / (L : ℚ)⌋ : ℚ) ≤ D / L := Int.floor_le _
    calc (L : ℚ) * ⌊D / (L : ℚ)⌋ ≤ (L : ℚ) * (D / L) :=
          mul_le_mul_of_nonneg_left h1 (le_of_lt hLQ)
      _ = D := by field_simp
  have hO : ¬ (0 < (0 : ℕ)) := by omega
  rw [maxPossibleClips, if_neg hO, truncQ, if_pos hdiv, pymod]
  by_cases hmod : (0 : ℚ) < D - L * ⌊D / (L : ℚ)⌋
  · rw [if_pos hmod]
    symm
    rw [Int.ceil_eq_iff]
    constructor
    · have hlt : (⌊D / (L : ℚ)⌋ : ℚ) < D / L := by
        rw [lt_div_iff₀ hLQ]
        nlinarith
      push_cast
      linarith
    · have := le_of_lt (Int.lt_floor_add_one (D / (L : ℚ)))
      push_cast
      linarith
  · rw [if_neg hmod]
    have heq : D = (L : ℚ) * ⌊D / (L : ℚ)⌋ := le_antisymm (by linarith [not_lt.mp hmod]) hfl
    have hdl : D / (L : ℚ) = ((⌊D / (L : ℚ)⌋ : ℤ) : ℚ) := by
      rw [heq]
      field_simp
    have hceil : ⌈D / (L : ℚ)⌉ = ⌊D / (L : ℚ)⌋ := by
      conv_lhs => rw [hdl]
      rw [Int.ceil_intCast]
    rw [hceil]
    omega

theorem progressPct_mono {k j n : ℕ} (h : k ≤ j) :
    progressPct k n ≤ progressPct j n := by
  have hkj : (k : ℚ) ≤ j := by exact_mod_cast h
  have h0 : (0 : ℚ) ≤ ((k : ℚ) / n) * 100 := by positivity
  have h0' : (0 : ℚ) ≤ ((j : ℚ) / n) * 100 := by positivity
  rw [progressPct, progressPct, truncQ, truncQ, if_pos h0, if_pos h0']
  apply Int.floor_mono
  gcongr

/-! ### Helper lemmas about the worker loop -/

theorem runLoop_finishedCount (D : ℚ) (L O total : ℕ) (enc : ℕ → EncodeResult)
    (stopRead : ℕ → Bool) {n : ℕ} :
    ∀ {i c : ℕ},
      finishedCount (runLoop D L O total enc stopRead n i c).events = 0 := by
  induction n with
  | zero => intro i c; simp [runLoop, finishedCount]
  | succ n ih =>
    intro i c
    rw [runLoop]
    split
    · simp [finishedCount, isFinishedEv]
    · split
      · simp [finishedCount]
      · split
        · exact ih
        · split
          · simp [finishedCount, isFinishedEv]
          · split
            · simp [finishedCount, isFinishedEv]
            · split
              · simpa [finishedCount, isFinishedEv, List.filter_cons] using ih
              · simp [finishedCount, isFinishedEv]

theorem runLoop_clipIdxs (D : ℚ) (L O total : ℕ) (enc : ℕ → EncodeResult)
    (stopRead : ℕ → Bool) {n : ℕ} :
    ∀ {i c : ℕ},
      ((clipIdxs (runLoop D L O total enc stopRead n i c).events).Pairwise (· < ·)) ∧
      (∀ k ∈ clipIdxs (runLoop D L O total enc stopRead n i c).events, i < k) := by
  induction n with
  | zero => intro i c; simp [runLoop, clipIdxs]
  | succ n ih =>
    intro i c
    rw [runLoop]
    split
    · simp [clipIdxs, clipIdx]
    · split
      · simp [clipIdxs]
      · split
        · refine ⟨ih.1, fun k hk => ?_⟩
          exact lt_trans (Nat.lt_succ_self i) (ih.2 k hk)
        · split
          · simp [clipIdxs, clipIdx]
          · split
            · simp [clipIdxs, clipIdx]
            · split
              · constructor
                · simp only [clipIdxs, List.filterMap_cons, clipIdx]
                  refine List.pairwise_cons.mpr ⟨fun k hk => ?_, ih.1⟩
                  exact ih.2 k hk
                · intro k hk
                  simp only [clipIdxs, List.filterMap_cons, clipIdx] at hk
                  rcases List.mem_cons.mp hk with rfl | hk'
                  · exact Nat.lt_succ_self i
                  · exact lt_trans (Nat.lt_succ_self i) (ih.2 k hk')
              · simp [clipIdxs, clipIdx]

theorem runLoop_progressVals (D : ℚ) (L O total : ℕ) (enc : ℕ → EncodeResult)
    (stopRead : ℕ → Bool) {n : ℕ} :
    ∀ {i c : ℕ},
      ((progressVals (runLoop D L O total enc stopRead n i c).events).Pairwise (· ≤ ·)) ∧
      (∀ p ∈ progressVals (runLoop D L O total enc stopRead n i c).events,
        progressPct (i + 1) total ≤ p) := by
  induction n with
  | zero => intro i c; simp [runLoop, progressVals]
  | succ n ih =>
    intro i c
    rw [runLoop]
    split
    · simp [progressVals, progressVal]
    · split
      · simp [progressVals]
      · split
        · refine ⟨ih.1, fun p hp => ?_⟩
          exact le_trans (progressPct_mono (Nat.le_succ (i + 1))) (ih.2 p hp)
        · split
          · simp [progressVals, progressVal]
          · split
            · simp [progressVals, progressVal]
            · split
              · constructor
                · simp only [progressVals, List.filterMap_cons, progressVal]
                  refine List.pairwise_cons.mpr ⟨fun p hp => ?_, ih.1⟩
                  exact le_trans (progressPct_mono (Nat.le_succ (i + 1))) (ih.2 p hp)
                · intro p hp
                  simp only [progressVals, List.filterMap_cons, progressVal] at hp
                  rcases List.mem_cons.mp hp with rfl | hp'
                  · exact le_refl _
                  · exact le_trans (progressPct_mono (Nat.le_succ (i + 1))) (ih.2 p hp')
              · simp [progressVals, progressVal]

theorem runLoop_clipCompleted_mem (D : ℚ) (L O total : ℕ)
    (enc : ℕ → EncodeResult) (stopRead : ℕ → Bool) {n : ℕ} :
    ∀ {i c k : ℕ},
      Event.clipCompleted k ∈ (runLoop D L O total enc stopRead n i c).events →
      ∃ j, i ≤ j ∧ k = j + 1 ∧ (enc j).timedOut = false ∧
        (enc j).returncode = 0 ∧ encodeVerified (enc j) = true := by
  induction n with
  | zero => intro i c k h; simp [runLoop] at h
  | succ n ih =>
    intro i c k h
    rw [runLoop] at h
    split at h
    · simp at h
    · split at h
      · simp at h
      · split at h
        · obtain ⟨j, hij, hrest⟩ := ih h
          exact ⟨j, by omega, hrest⟩
        · split at h
          · simp at h
          · split at h
            · simp at h
            · split at h
              · rename_i hto hrc hver
                simp only [List.mem_cons] at h
                rcases h with h | h | h | h
                · exact absurd h (by simp)
                · have hk : k = i + 1 := by
                    injection h
                  refine ⟨i, le_refl i, hk, ?_, not_not.mp hrc, hver⟩
                  simpa using hto
                · exact absurd h (by simp)
                · obtain ⟨j, hij, hrest⟩ := ih h
                  exact ⟨j, by omega, hrest⟩
              · simp at h

theorem runLoop_clipsCreated (D : ℚ) (L O total : ℕ) (enc : ℕ → EncodeResult)
    (stopRead : ℕ → Bool) {n : ℕ} :
    ∀ {i c : ℕ},
      (runLoop D L O total enc stopRead n i c).clipsCreated =
        c + (clipIdxs (runLoop D L O total enc stopRead n i c).events).length := by
  induction n with
  | zero => intro i c; simp [runLoop, clipIdxs]
  | succ n ih =>
    intro i c
    rw [runLoop]
    split
    · simp [clipIdxs, clipIdx]
    · split
      · simp [clipIdxs]
      · split
        · exact ih
        · split
          · simp [clipIdxs, clipIdx]
          · split
            · simp [clipIdxs, clipIdx]
            · split
              · dsimp only
                rw [ih]
                simp only [clipIdxs, List.filterMap_cons, clipIdx, List.length_cons]
                omega
              · simp [clipIdxs, clipIdx]

/-! ### Helper lemmas about signal-sequence extraction -/

theorem progressVals_cons_status (m : StatusMsg) (es : List Event) :
    progressVals (.status m :: es) = progressVals es := by
  simp [progressVals, progressVal]

theorem progressVals_append (es fs : List Event) :
    progressVals (es ++ fs) = progressVals es ++ progressVals fs := by
  simp [progressVals]

theorem clipIdxs_cons_status (m : StatusMsg) (es : List Event) :
    clipIdxs (.status m :: es) = clipIdxs es := by
  simp [clipIdxs, clipIdx]

theorem clipIdxs_append (es fs : List Event) :
    clipIdxs (es ++ fs) = clipIdxs es ++ clipIdxs fs := by
  simp [clipIdxs]

theorem progressVals_terminalEvents (b : Bool) (c : ℕ) :
    progressVals (terminalEvents b c) = [] := by
  rw [terminalEvents]
  split
  · simp [progressVals, progressVal]
  · split <;> simp [progressVals, progressVal]

theorem clipIdxs_terminalEvents (b : Bool) (c : ℕ) :
    clipIdxs (terminalEvents b c) = [] := by
  rw [terminalEvents]
  split
  · simp [clipIdxs, clipIdx]
  · split <;> simp [clipIdxs, clipIdx]

theorem finishedCount_terminalEvents_stopped (c : ℕ) :
    finishedCount (terminalEvents true c) = 0 := by
  rw [terminalEvents]
  simp only [Bool.not_true, Bool.false_and]
  split
  · simp_all
  · split <;> simp [finishedCount, isFinishedEv]

theorem finishedCount_cons_status (m : StatusMsg) (es : List Event) :
    finishedCount (.status m :: es) = finishedCount es := by
  simp [finishedCount, isFinishedEv]

theorem finishedCount_append (es fs : List Event) :
    finishedCount (es ++ fs) = finishedCount es + finishedCount fs := by
  simp [finishedCount, List.filter_append]

theorem clipCompleted_mem_clipIdxs {k : ℕ} {es : List Event}
    (h : Event.clipCompleted k ∈ es) : k ∈ clipIdxs es :=
  List.mem_filterMap.mpr ⟨Event.clipCompleted k, h, rfl⟩

/-! ### Claim theorems -/

/-- C1: evidence of the divergence.  In the fail-fast scenario (five
planned clips of a 150-second video, clips 1 and 2 encode successfully,
the encode of clip 3 exits non-zero) the remaining clips are indeed
never attempted (only clips 1-3 spawn a subprocess) and
`clips_created = 2`, but the worker emits BOTH the `error` signal for
clip 3 AND, from the terminal branch at src/main.py:239-241, the
success status and `finished(2)`: the caller receives two terminal
events, not exactly one. -/
theorem clip_failure_emits_error_and_finished :
    (runWorker 150 30 0 5 encC1 (fun _ => false) false).events =
      [.status (.creating 5),
       .status (.processing 1 5), .clipCompleted 1, .progress 20,
       .status (.processing 2 5), .clipCompleted 2, .progress 40,
       .status (.processing 3 5), .error (.clipFailed 3),
       .status (.success 2), .finished 2] ∧
    (runWorker 150 30 0 5 encC1 (fun _ => false) false).spawns = [1, 2, 3] ∧
    (runWorker 150 30 0 5 encC1 (fun _ => false) false).clipsCreated = 2 ∧
    terminalCount (runWorker 150 30 0 5 encC1 (fun _ => false) false).events = 2 := by
  have hev : (runWorker 150 30 0 5 encC1 (fun _ => false) false).events =
      [.status (.creating 5),
       .status (.processing 1 5), .clipCompleted 1, .progress 20,
       .status (.processing 2 5), .clipCompleted 2, .progress 40,
       .status (.processing 3 5), .error (.clipFailed 3),
       .status (.success 2), .finished 2] := by
    norm_num [runWorker, runLoop, terminalEvents, actualClips, maxPossibleClips,
      truncQ, pymod, clipStart, clipEnd, encodeVerified, progressPct, encC1,
      show Int.toNat 5 = 5 from rfl]
  refine ⟨hev, ?_, ?_, ?_⟩
  · norm_num [runWorker, runLoop, terminalEvents, actualClips, maxPossibleClips,
      truncQ, pymod, clipStart, clipEnd, encodeVerified, progressPct, encC1,
      show Int.toNat 5 = 5 from rfl]
  · norm_num [runWorker, runLoop, terminalEvents, actualClips, maxPossibleClips,
      truncQ, pymod, clipStart, clipEnd, encodeVerified, progressPct, encC1,
      show Int.toNat 5 = 5 from rfl]
  · rw [hev]
    decide

/-- C2, as amended: with a selected, existing input file, a selected
output folder and a working ffmpeg, every request with
`overlap >= clip_duration` is rejected by the "Invalid Overlap" warning
before the worker thread is started, so no probe or encode subprocess is
ever spawned for the job; however the rejection is preceded by the
`ffmpeg -version` availability-check subprocess of `check_ffmpeg`
(src/main.py:610), so it does not precede every subprocess. -/
theorem overlap_rejected_before_worker (st : AppState) (L O : ℕ)
    (h1 : st.inputFileSelected = true) (h2 : st.outputDirSelected = true)
    (h3 : st.inputFileExists = true) (h4 : st.ffmpegOnPath = true)
    (h5 : st.ffmpegVersionOk = true) (hO : L ≤ O) :
    start_splitting st L O =
      [.spawnProcess .ffmpegVersion, .warnInvalidOverlap] := by
  rw [start_splitting, check_ffmpeg, h1, h2, h3, h4, h5]
  simp [hO]

/-- C2 witness: the amended theorem applied at a concrete rejected
request (clip length 30, overlap 30, healthy application state). -/
theorem overlap_rejected_before_worker_witness :
    ((⟨true, true, true, true, true⟩ : AppState).inputFileSelected = true ∧
      (⟨true, true, true, true, true⟩ : AppState).outputDirSelected = true ∧
      (⟨true, true, true, true, true⟩ : AppState).inputFileExists = true ∧
      (⟨true, true, true, true, true⟩ : AppState).ffmpegOnPath = true ∧
      (⟨true, true, true, true, true⟩ : AppState).ffmpegVersionOk = true ∧
      30 ≤ 30) ∧
    start_splitting ⟨true, true, true, true, true⟩ 30 30 =
      [.spawnProcess .ffmpegVersion, .warnInvalidOverlap] :=
  ⟨⟨rfl, rfl, rfl, rfl, rfl, by decide⟩,
    overlap_rejected_before_worker ⟨true, true, true, true, true⟩ 30 30
      rfl rfl rfl rfl rfl (by decide)⟩

/-- C2 counterexample: for the concrete over-long overlap request
(clip length 30, overlap 30), the trace of `start_splitting` places the
`ffmpeg -version` subprocess spawn strictly before the configuration
rejection, refuting "this rejection happens before any external
subprocess is spawned". -/
theorem config_rejection_after_ffmpeg_spawn :
    start_splitting ⟨true, true, true, true, true⟩ 30 30 =
      [.spawnProcess .ffmpegVersion, .warnInvalidOverlap] ∧
    (start_splitting ⟨true, true, true, true, true⟩ 30 30).indexOf
        (.spawnProcess .ffmpegVersion) <
      (start_splitting ⟨true, true, true, true, true⟩ 30 30).indexOf
        .warnInvalidOverlap := by
  decide

/-- C3: evidence of the divergence.  The source computes the frame rate
by `eval` of the probe text (src/main.py:76), a generic expression
evaluation; on denominator zero (probe text "30/0") this raises, so the
probe fails as a whole (`none`) instead of yielding `fps = 0` as the
claimed explicit guarded parse (`parseFrameRateSpec`, modelled from the
spec) does.  On a regular "30/1" both agree. -/
theorem frame_rate_eval_den_zero :
    evalFrameRate 30 0 = none ∧ parseFrameRateSpec 30 0 = 0 ∧
    evalFrameRate 30 1 = some 30 ∧ parseFrameRateSpec 30 1 = 30 := by
  refine ⟨rfl, rfl, ?_, ?_⟩ <;>
    norm_num [evalFrameRate, parseFrameRateSpec]

/-- C4, as amended: a `finished` signal is never emitted when the stop
flag is set at the terminal check, for any job; and in scenario D
(stop flag set after 2 of 5 planned clips succeed) the loop stops before
clip 3, only clips 1 and 2 spawn a subprocess, the job ends with the
"stopped" status carrying `clips_created = 2`, and no `error` or
`finished` signal is emitted.  (Cancellation before any success is
reported through the `error` signal instead — see the counterexample.) -/
theorem cancellation_status_semantics :
    (∀ (D : ℚ) (L O N : ℕ) (enc : ℕ → EncodeResult) (stopRead : ℕ → Bool),
      finishedCount (runWorker D L O N enc stopRead true).events = 0) ∧
    (runWorker 150 30 0 5 encOkAll (fun i => decide (2 ≤ i)) true).events =
      [.status (.creating 5),
       .status (.processing 1 5), .clipCompleted 1, .progress 20,
       .status (.processing 2 5), .clipCompleted 2, .progress 40,
       .status .stopping, .status (.stopped 2)] ∧
    (runWorker 150 30 0 5 encOkAll (fun i => decide (2 ≤ i)) true).spawns = [1, 2] ∧
    (runWorker 150 30 0 5 encOkAll (fun i => decide (2 ≤ i)) true).clipsCreated = 2 ∧
    terminalCount
      (runWorker 150 30 0 5 encOkAll (fun i => decide (2 ≤ i)) true).events = 0 := by
  have hev : (runWorker 150 30 0 5 encOkAll (fun i => decide (2 ≤ i)) true).events =
      [.status (.creating 5),
       .status (.processing 1 5), .clipCompleted 1, .progress 20,
       .status (.processing 2 5), .clipCompleted 2, .progress 40,
       .status .stopping, .status (.stopped 2)] := by
    norm_num [runWorker, runLoop, terminalEvents, actualClips, maxPossibleClips,
      truncQ, pymod, clipStart, clipEnd, encodeVerified, progressPct, encOkAll,
      show Int.toNat 5 = 5 from rfl]
  refine ⟨?_, hev, ?_, ?_, ?_⟩
  · intro D L O N enc stopRead
    rw [runWorker]
    split
    · simp [finishedCount, isFinishedEv]
    · dsimp only
      rw [finishedCount_cons_status, finishedCount_append,
        finishedCount_terminalEvents_stopped,
        @runLoop_finishedCount D L O (actualClips D L O N).toNat enc stopRead
          (actualClips D L O N).toNat 0 0]
  · norm_num [runWorker, runLoop, terminalEvents, actualClips, maxPossibleClips,
      truncQ, pymod, clipStart, clipEnd, encodeVerified, progressPct, encOkAll,
      show Int.toNat 5 = 5 from rfl]
  · norm_num [runWorker, runLoop, terminalEvents, actualClips, maxPossibleClips,
      truncQ, pymod, clipStart, clipEnd, encodeVerified, progressPct, encOkAll,
      show Int.toNat 5 = 5 from rfl]
  · rw [hev]
    decide

/-- C4 counterexample: a job whose stop flag is already set before the
first clip (cancellation with zero successes) terminates through the
`clips_created == 0` branch at src/main.py:242-243 and is reported to
the caller with the `error` signal "No clips were created successfully",
refuting "cancellation is never reported as an error". -/
theorem cancel_with_zero_clips_reports_error :
    (runWorker 150 30 0 5 encOkAll (fun _ => true) true).events =
      [.status (.creating 5), .status .stopping, .error .noClips] ∧
    errorCount (runWorker 150 30 0 5 encOkAll (fun _ => true) true).events = 1 ∧
    (runWorker 150 30 0 5 encOkAll (fun _ => true) true).clipsCreated = 0 := by
  have hev : (runWorker 150 30 0 5 encOkAll (fun _ => true) true).events =
      [.status (.creating 5), .status .stopping, .error .noClips] := by
    norm_num [runWorker, runLoop, terminalEvents, actualClips, maxPossibleClips,
      truncQ, pymod, clipStart, clipEnd, encodeVerified, progressPct, encOkAll,
      show Int.toNat 5 = 5 from rfl]
  refine ⟨hev, ?_, ?_⟩
  · rw [hev]
    decide
  · norm_num [runWorker, runLoop, terminalEvents, actualClips, maxPossibleClips,
      truncQ, pymod, clipStart, clipEnd, encodeVerified, progressPct, encOkAll,
      show Int.toNat 5 = 5 from rfl]

/-- C5: with no overlap, the loop bound `actual_clips` equals
`min(requested, ceil(D / L))` for every positive duration `D` and clip
length `L`, the window of loop index `i` is
`[i * L, min((i + 1) * L, D))`, and scenario A (`D = 100`, `L = 30`,
`N = 10`) plans exactly the four clips
`[0,30) [30,60) [60,90) [90,100)`. -/
theorem plan_no_overlap_count_and_windows (D : ℚ) (L N : ℕ)
    (hD : 0 < D) (hL : 0 < L) :
    actualClips D L 0 N = min (N : ℤ) ⌈D / (L : ℚ)⌉ ∧
    (∀ i : ℕ, clipStart L 0 i = (i : ℚ) * L ∧
      clipEnd D L 0 i = min (((i : ℚ) + 1) * L) D) ∧
    plan 100 30 0 10 = [⟨1, 0, 30⟩, ⟨2, 30, 60⟩, ⟨3, 60, 90⟩, ⟨4, 90, 100⟩] := by
  have hstart : ∀ i : ℕ, clipStart L 0 i = (i : ℚ) * L := by
    intro i
    rw [clipStart, if_neg (by omega)]
  refine ⟨?_, ?_, ?_⟩
  · rw [actualClips, maxPossible_no_overlap hD hL]
  · intro i
    refine ⟨hstart i, ?_⟩
    rw [clipEnd, hstart i]
    congr 1
    ring
  · norm_num [plan, planFrom, actualClips, maxPossibleClips, truncQ, pymod,
      clipStart, clipEnd]

/-- C5 witness: the theorem applied at scenario A. -/
theorem plan_no_overlap_count_and_windows_witness :
    ((0 : ℚ) < 100 ∧ 0 < 30) ∧
    plan 100 30 0 10 = [⟨1, 0, 30⟩, ⟨2, 30, 60⟩, ⟨3, 60, 90⟩, ⟨4, 90, 100⟩] :=
  ⟨⟨by norm_num, by norm_num⟩,
    (plan_no_overlap_count_and_windows 100 30 10 (by norm_num) (by norm_num)).2.2⟩

/-- C6: with overlap `0 < O < L`, the start of loop index `i` is the
fixed stride product `i * (L - O)` (not derived from the previous end),
every emitted clip starts strictly before the duration, once a start
reaches the duration no clip with a later index is emitted, emitted
starts are strictly increasing (so no two clips share a start), and
scenario B (`D = 100`, `L = 30`, `O = 5`, `N = 10`) plans exactly four
clips with starts `0, 25, 50, 75`, the last spanning `[75, 100)`. -/
theorem plan_overlap_stride_and_starts (D : ℚ) (L O N : ℕ)
    (hD : 0 < D) (hO : 0 < O) (hOL : O < L) :
    (∀ i : ℕ, clipStart L O i = (i : ℚ) * ((L : ℚ) - O)) ∧
    (∀ spec ∈ plan D L O N, spec.start < D) ∧
    ((plan D L O N).Pairwise (fun a b => a.start < b.start)) ∧
    (∀ i : ℕ, D ≤ clipStart L O i → ∀ spec ∈ plan D L O N, spec.index ≤ i) ∧
    plan 100 30 5 10 = [⟨1, 0, 30⟩, ⟨2, 25, 55⟩, ⟨3, 50, 80⟩, ⟨4, 75, 100⟩] := by
  have hstride0 : (0 : ℚ) ≤ (L : ℚ) - O := by
    have hc : ((O : ℕ) : ℚ) ≤ (L : ℕ) := by exact_mod_cast le_of_lt hOL
    linarith
  refine ⟨?_, ?_, ?_, ?_, ?_⟩
  · intro i
    rw [clipStart, if_pos hO]
    exact max_eq_right (mul_nonneg (by positivity) hstride0)
  · intro spec hspec
    obtain ⟨j, hij, rfl, hstart, hlen⟩ := planFrom_mem hspec
    exact hstart
  · exact (planFrom_pairwise hOL).imp (fun hab => hab.2)
  · intro i hDi spec hspec
    obtain ⟨j, hij, rfl, hstart, hlen⟩ := planFrom_mem hspec
    show j + 1 ≤ i
    by_contra hcon
    have hle : i ≤ j := by omega
    have hmono := clipStart_le_of_le hOL hle
    linarith
  · norm_num [plan, planFrom, actualClips, maxPossibleClips, truncQ, pymod,
      clipStart, clipEnd]

/-- C6 witness: the theorem applied at scenario B. -/
theorem plan_overlap_stride_and_starts_witness :
    ((0 : ℚ) < 100 ∧ 0 < 5 ∧ 5 < 30) ∧
    plan 100 30 5 10 = [⟨1, 0, 30⟩, ⟨2, 25, 55⟩, ⟨3, 50, 80⟩, ⟨4, 75, 100⟩] :=
  ⟨⟨by norm_num, by norm_num, by norm_num⟩,
    (plan_overlap_stride_and_starts 100 30 5 10 (by norm_num) (by norm_num)
      (by norm_num)).2.2.2.2⟩

/-- C7: every emitted clip window satisfies
`0 <= start < stop <= duration` and equals the window formula at its
index, emitted clips are strictly increasing in index and in start, at
most `requestedClipCount` clips are emitted, and a window shorter than
one second is omitted from the plan while every other emitted window is
still the unaltered formula window of its own index. -/
theorem plan_invariants (D : ℚ) (L O N : ℕ) (hD : 0 < D) (hOL : O < L) :
    (∀ spec ∈ plan D L O N,
      0 ≤ spec.start ∧ spec.start < spec.stop ∧ spec.stop ≤ D ∧
      spec.start = clipStart L O (spec.index - 1) ∧
      spec.stop = clipEnd D L O (spec.index - 1)) ∧
    ((plan D L O N).Pairwise (fun a b => a.index < b.index ∧ a.start < b.start)) ∧
    (plan D L O N).length ≤ N ∧
    (∀ i : ℕ, clipEnd D L O i - clipStart L O i < 1 →
      (plan D L O N).filter (fun spec => spec.index == i + 1) = []) := by
  refine ⟨?_, planFrom_pairwise hOL, ?_, ?_⟩
  · intro spec hspec
    obtain ⟨j, hij, rfl, hstart, hlen⟩ := planFrom_mem hspec
    refine ⟨clipStart_nonneg L O j, by linarith, min_le_right _ _, by simp, by simp⟩
  · calc (plan D L O N).length ≤ (actualClips D L O N).toNat := planFrom_length_le
      _ ≤ ((N : ℤ)).toNat := Int.toNat_le_toNat (min_le_left _ _)
      _ = N := Int.toNat_ofNat N
  · intro i hi
    rw [List.filter_eq_nil_iff]
    intro spec hspec
    obtain ⟨j, hij, rfl, hstart, hlen⟩ := planFrom_mem hspec
    simp only [beq_iff_eq]
    intro hidx
    have hj : j = i := by omega
    subst hj
    linarith

/-- C7 witness: the theorem applied at `D = 100`, `L = 30`, `O = 5`,
`N = 10`. -/
theorem plan_invariants_witness :
    ((0 : ℚ) < 100 ∧ 5 < 30) ∧ (plan 100 30 5 10).length ≤ 10 :=
  ⟨⟨by norm_num, by norm_num⟩,
    (plan_invariants 100 30 5 10 (by norm_num) (by norm_num)).2.2.1⟩

/-- C8: for every job configuration, encode-outcome oracle and stop-flag
schedule, the worker's signal sequence carries monotonically
non-decreasing progress percentages and strictly increasing
clip-completed indices, in emission order. -/
theorem event_order_monotone (D : ℚ) (L O N : ℕ) (enc : ℕ → EncodeResult)
    (stopRead : ℕ → Bool) (stopFinal : Bool) :
    ((progressVals (runWorker D L O N enc stopRead stopFinal).events).Pairwise
      (· ≤ ·)) ∧
    ((clipIdxs (runWorker D L O N enc stopRead stopFinal).events).Pairwise
      (· < ·)) := by
  rw [runWorker]
  split
  · simp [progressVals, clipIdxs, progressVal, clipIdx]
  · dsimp only
    constructor
    · rw [progressVals_cons_status, progressVals_append,
        progressVals_terminalEvents, List.append_nil]
      exact (@runLoop_progressVals D L O (actualClips D L O N).toNat enc stopRead
        (actualClips D L O N).toNat 0 0).1
    · rw [clipIdxs_cons_status, clipIdxs_append, clipIdxs_terminalEvents,
        List.append_nil]
      exact (@runLoop_clipIdxs D L O (actualClips D L O N).toNat enc stopRead
        (actualClips D L O N).toNat 0 0).1

/-- C9: a `clip_completed` signal for clip `k` is emitted only when the
encode subprocess of loop index `k - 1` did not time out, exited zero,
AND its output file exists with size strictly above 1024 bytes; the
final `clips_created` always equals the number of `clip_completed`
signals, so a clip is counted only under the same verification; and in
the concrete run `encSmall` (every invocation exits 0 but leaves a
100-byte file) no clip is completed, the worker emits the per-clip error
followed by the "no clips" error, and `clips_created = 0`. -/
theorem clip_verification_gate (D : ℚ) (L O N : ℕ) (enc : ℕ → EncodeResult)
    (stopRead : ℕ → Bool) (stopFinal : Bool) (k : ℕ)
    (hk : Event.clipCompleted k ∈ (runWorker D L O N enc stopRead stopFinal).events) :
    (1 ≤ k ∧ (enc (k - 1)).timedOut = false ∧ (enc (k - 1)).returncode = 0 ∧
      (enc (k - 1)).outputExists = true ∧ 1024 < (enc (k - 1)).outputSize) ∧
    (runWorker D L O N enc stopRead stopFinal).clipsCreated =
      (clipIdxs (runWorker D L O N enc stopRead stopFinal).events).length ∧
    (runWorker 150 30 0 5 encSmall (fun _ => false) false).events =
      [.status (.creating 5), .status (.processing 1 5),
       .error (.clipFailed 1), .error .noClips] ∧
    (runWorker 150 30 0 5 encSmall (fun _ => false) false).clipsCreated = 0 := by
  refine ⟨?_, ?_, ?_, ?_⟩
  · rw [runWorker] at hk
    split at hk
    · simp at hk
    · dsimp only at hk
      simp only [List.mem_cons, List.mem_append] at hk
      rcases hk with h | h | h
      · exact absurd h (by simp)
      · obtain ⟨j, hij, rfl, hto, hrc, hver⟩ :=
          runLoop_clipCompleted_mem D L O _ enc stopRead h
        have hj : j + 1 - 1 = j := by omega
        rw [hj]
        rw [encodeVerified, Bool.and_eq_true, decide_eq_true_eq] at hver
        exact ⟨by omega, hto, hrc, hver.1, hver.2⟩
      · have hmem := clipCompleted_mem_clipIdxs h
        rw [clipIdxs_terminalEvents] at hmem
        simp at hmem
  · rw [runWorker]
    split
    · simp [clipIdxs, clipIdx]
    · dsimp only
      rw [clipIdxs_cons_status, clipIdxs_append, clipIdxs_terminalEvents,
        List.append_nil]
      simpa using @runLoop_clipsCreated D L O (actualClips D L O N).toNat enc
        stopRead (actualClips D L O N).toNat 0 0
  · norm_num [runWorker, runLoop, terminalEvents, actualClips, maxPossibleClips,
      truncQ, pymod, clipStart, clipEnd, encodeVerified, progressPct, encSmall,
      show Int.toNat 5 = 5 from rfl]
  · norm_num [runWorker, runLoop, terminalEvents, actualClips, maxPossibleClips,
      truncQ, pymod, clipStart, clipEnd, encodeVerified, progressPct, encSmall,
      show Int.toNat 5 = 5 from rfl]

/-- C9 witness: the theorem applied at the all-success run, where
`clip_completed 1` is emitted. -/
theorem clip_verification_gate_witness :
    Event.clipCompleted 1 ∈
      (runWorker 150 30 0 5 encOkAll (fun _ => false) false).events ∧
    (1 ≤ 1 ∧ (encOkAll 0).timedOut = false ∧ (encOkAll 0).returncode = 0 ∧
      (encOkAll 0).outputExists = true ∧ 1024 < (encOkAll 0).outputSize) := by
  have hmem : Event.clipCompleted 1 ∈
      (runWorker 150 30 0 5 encOkAll (fun _ => false) false).events := by
    norm_num [runWorker, runLoop, terminalEvents, actualClips, maxPossibleClips,
      truncQ, pymod, clipStart, clipEnd, encodeVerified, progressPct, encOkAll,
      show Int.toNat 5 = 5 from rfl]
  exact ⟨hmem,
    (clip_verification_gate 150 30 0 5 encOkAll (fun _ => false) false 1 hmem).1⟩

/-- C10: when the stop flag is set only while the final planned clip is
encoding (every loop-top read sees it unset, the terminal read sees it
set) and all five planned clips succeed, the worker emits neither
`finished` nor `error`: the run ends with only the "stopped" status and
`clips_created = 5`. -/
theorem late_cancel_no_terminal_event :
    (runWorker 150 30 0 5 encOkAll (fun _ => false) true).events =
      [.status (.creating 5),
       .status (.processing 1 5), .clipCompleted 1, .progress 20,
       .status (.processing 2 5), .clipCompleted 2, .progress 40,
       .status (.processing 3 5), .clipCompleted 3, .progress 60,
       .status (.processing 4 5), .clipCompleted 4, .progress 80,
       .status (.processing 5 5), .clipCompleted 5, .progress 100,
       .status (.stopped 5)] ∧
    (runWorker 150 30 0 5 encOkAll (fun _ => false) true).clipsCreated = 5 ∧
    terminalCount (runWorker 150 30 0 5 encOkAll (fun _ => false) true).events = 0 := by
  have hev : (runWorker 150 30 0 5 encOkAll (fun _ => false) true).events =
      [.status (.creating 5),
       .status (.processing 1 5), .clipCompleted 1, .progress 20,
       .status (.processing 2 5), .clipCompleted 2, .progress 40,
       .status (.processing 3 5), .clipCompleted 3, .progress 60,
       .status (.processing 4 5), .clipCompleted 4, .progress 80,
       .status (.processing 5 5), .clipCompleted 5, .progress 100,
       .status (.stopped 5)] := by
    norm_num [runWorker, runLoop, terminalEvents, actualClips, maxPossibleClips,
      truncQ, pymod, clipStart, clipEnd, encodeVerified, progressPct, encOkAll,
      show Int.toNat 5 = 5 from rfl]
  refine ⟨hev, ?_, ?_⟩
  · norm_num [runWorker, runLoop, terminalEvents, actualClips, maxPossibleClips,
      truncQ, pymod, clipStart, clipEnd, encodeVerified, progressPct, encOkAll,
      show Int.toNat 5 = 5 from rfl]
  · rw [hev]
    decide

end MP4Split
